import Mathlib

/-!
Verification development for the multi-level workflow-execution engine
(Team / Agency orchestration classes and their EventEmitter utility).

The definitions below are a shallow embedding of the JavaScript source:
JavaScript objects become an inductive value type with association-list
objects, the orchestration methods become pure Lean functions (the external
generative "Agent"/"Unit" collaborators are parameters: each is an oracle
taking the materialized textual input and the shared context and returning
either a result value or a thrown error), and the asynchronous run loops
become deterministic functions corresponding to the event-loop schedule in
which dispatched calls settle in dispatch order.  Timing-sensitive facts
about parallel batches are modelled separately with explicit settle ticks
reflecting promise-combinator semantics.
-/

/-- Model of the JavaScript values the engine manipulates: the undefined
sentinel, null, booleans, (integer) numbers, strings, and plain objects as
association lists in property-insertion order.  Arrays and functions never
flow through the orchestration paths covered by the claims and are omitted. -/
inductive JSValue where
  | undefined : JSValue
  | null : JSValue
  | bool : Bool → JSValue
  | num : Int → JSValue
  | str : String → JSValue
  | obj : List (String × JSValue) → JSValue
deriving Repr

/-- Look a key up in an association list (models reading a property of a
plain object whose own keys are exactly the list's keys, first match wins;
objects built by the engine have unique keys). -/
def alookup {β : Type} : List (String × β) → String → Option β
  | [], _ => none
  | (k', v) :: rest, k => if k' == k then some v else alookup rest k

/-- Model of a JavaScript property assignment `o[k] = v` on a plain object:
an existing key keeps its position and gets the new value, a fresh key is
appended (JS property-insertion order). -/
def setKey {β : Type} : List (String × β) → String → β → List (String × β)
  | [], k, v => [(k, v)]
  | (k', v') :: rest, k, v =>
    if k' == k then (k', v) :: rest else (k', v') :: setKey rest k v

theorem alookup_setKey_self {β : Type} (l : List (String × β)) (k : String) (v : β) :
    alookup (setKey l k v) k = some v := by
  induction l with
  | nil => simp [setKey, alookup]
  | cons hd tl ih =>
    obtain ⟨k', v'⟩ := hd
    by_cases h : k' = k
    · simp [setKey, alookup, h]
    · simp only [setKey, alookup, beq_iff_eq, h, if_false]
      simpa [alookup, h] using ih

theorem alookup_setKey_ne {β : Type} (l : List (String × β)) (k k' : String) (v : β)
    (h : k ≠ k') : alookup (setKey l k' v) k = alookup l k := by
  have h' : ¬ (k' = k) := fun hh => h hh.symm
  induction l with
  | nil => simp [setKey, alookup, h']
  | cons hd tl ih =>
    obtain ⟨k0, v0⟩ := hd
    by_cases h0 : k0 = k'
    · subst h0
      simp [setKey, alookup, h']
    · simp only [setKey, beq_iff_eq, h0, if_false, alookup]
      by_cases h1 : k0 = k
      · simp [h1]
      · simp [h1, ih]

theorem alookup_setKey_isSome {β : Type} (l : List (String × β)) (k k' : String) (v : β)
    (h : (alookup l k).isSome) : (alookup (setKey l k' v) k).isSome := by
  by_cases hk : k = k'
  · subst hk; simp [alookup_setKey_self]
  · rwa [alookup_setKey_ne l k k' v hk]

/-- JS truthiness for the values in our model (`undefined`, `null`, `false`,
`0`, and the empty string are falsy; every object is truthy). -/
def jsTruthy : JSValue → Bool
  | .undefined => false
  | .null => false
  | .bool b => b
  | .num n => n != 0
  | .str s => s != ""
  | .obj _ => true

/-- Truthiness of an optional string-valued configuration field
(absent, i.e. undefined, and the empty string are falsy). -/
def optStrTruthy : Option String → Bool
  | some s => s != ""
  | none => false

/-- Model of `Object.keys`: own enumerable keys of an object in insertion
order; a string enumerates its character indices; other primitives have no
keys. -/
def jsKeys : JSValue → List String
  | .obj kvs => kvs.map Prod.fst
  | .str s => (List.range s.length).map (fun i => toString i)
  | _ => []

/-- Model of the spread copy `{ ...v }` as used on the initial-inputs object. -/
def spreadObj : JSValue → JSValue
  | .obj kvs => .obj kvs
  | .str s => .obj ((List.range s.length).map
      (fun i => (toString i, .str (String.singleton (s.get! ⟨i⟩)))))
  | _ => .obj []

/-- Model of `typeof v === 'object'` (true for plain objects and for null). -/
def isObjectTypeof : JSValue → Bool
  | .obj _ => true
  | .null => true
  | _ => false

def isNullV : JSValue → Bool
  | .null => true
  | _ => false

/-- Model of the `key in v` membership test, reached only on non-null objects. -/
def hasKeyIn : JSValue → String → Bool
  | .obj kvs, k => (alookup kvs k).isSome
  | _, _ => false

/-- Model of reading a property `v[k]`, yielding the undefined sentinel when
the key is absent (only ever applied to objects on the modelled paths). -/
def getProp : JSValue → String → JSValue
  | .obj kvs, k => (alookup kvs k).getD .undefined
  | _, _ => .undefined

/-- Model of the JavaScript `path.split('.')`: split into the (possibly
empty) runs of characters between dots; the empty string splits to a single
empty segment, matching `"".split('.')`. -/
def splitOnDotAux : List Char → List Char → List String
  | [], acc => [String.mk acc.reverse]
  | c :: cs, acc =>
    if c == '.' then String.mk acc.reverse :: splitOnDotAux cs []
    else splitOnDotAux cs (c :: acc)

def splitOnDot (s : String) : List String := splitOnDotAux s.toList []

/-- The segment walk of the shared `_resolveValue` helper (identical in
Team.js and in the Agency source): step through the parts; whenever the
current value is not a truthy object or lacks the segment key, return the
undefined sentinel. -/
def resolveParts : List String → JSValue → JSValue
  | [], current => current
  | part :: rest, current =>
    match current with
    | .obj kvs =>
      match alookup kvs part with
      | some v => resolveParts rest v
      | none => .undefined
    | _ => .undefined

/-- Model of `_resolveValue(path, sources)` from Team.js lines 63-74 (the
Agency copy at lines 89-100 of its source is textually identical): split the
path on dots and walk the segments. -/
def resolveValue (path : String) (sources : JSValue) : JSValue :=
  resolveParts (splitOnDot path) sources

/-- Modelled from the spec's words for claim C9 ("whenever any path segment
is absent or the current value is not an indexable object"): a Boolean
predicate, independent of the implementation's walk, that says the walk
encounters a failing step somewhere. -/
def specWalkFails : List String → JSValue → Bool
  | [], _ => false
  | part :: rest, current =>
    match current with
    | .obj kvs =>
      match alookup kvs part with
      | some v => specWalkFails rest v
      | none => true
    | _ => true

theorem resolveParts_of_specWalkFails (parts : List String) (cur : JSValue)
    (h : specWalkFails parts cur = true) : resolveParts parts cur = .undefined := by
  induction parts generalizing cur with
  | nil => simp [specWalkFails] at h
  | cons part rest ih =>
    cases cur with
    | obj kvs =>
      simp only [specWalkFails] at h
      simp only [resolveParts]
      cases halo : alookup kvs part with
      | none => simp
      | some v =>
        rw [halo] at h
        exact ih v h
    | undefined => rfl
    | null => rfl
    | bool b => rfl
    | num n => rfl
    | str s => rfl

/-- C9: path resolution is total, deterministic and idempotent.  The model
of `_resolveValue` is a total Lean function (so it never throws), two
resolutions of the same path against the same sources are equal, and
whenever the walk hits an absent segment or a non-indexable current value,
the result is the undefined sentinel. -/
theorem c9_resolution_total_sentinel (path : String) (sources : JSValue) :
    (resolveValue path sources = resolveValue path sources) ∧
    (specWalkFails (splitOnDot path) sources = true →
      resolveValue path sources = JSValue.undefined) :=
  ⟨rfl, fun h => resolveParts_of_specWalkFails _ _ h⟩

theorem c9_resolution_total_sentinel_witness :
    resolveValue "a.b" (JSValue.obj [("a", JSValue.num 1)]) = JSValue.undefined :=
  (c9_resolution_total_sentinel "a.b" (JSValue.obj [("a", JSValue.num 1)])).2 (by rfl)

/-- Listener registry of the EventEmitter utility (`this.events`): event
name to list of listeners in registration order.  Listeners are kept
abstract (any type), since only registration and selection matter here. -/
def emitterOn {α : Type} (events : List (String × List α)) (eventName : String)
    (listener : α) : List (String × List α) :=
  match alookup events eventName with
  | none => setKey events eventName [listener]
  | some ls => setKey events eventName (ls ++ [listener])

/-- The listeners that `emit(eventName, data)` invokes (EventEmitter.js
lines 42-53): exactly the listeners registered under the emitted name; an
unknown name invokes nobody.  There is no wildcard handling. -/
def emitTargets {α : Type} (events : List (String × List α)) (eventName : String) :
    List α :=
  (alookup events eventName).getD []

/-- C3 (code vs. claim): Agency.addTeam registers its forwarding listener on
the contained Team's emitter under the literal event name "*", but
EventEmitter.emit dispatches only to listeners registered under the exact
emitted name.  Hence for every actually-emitted event name (all of which
differ from "*"), registering the forwarder changes nothing: the forwarder
never runs, so the Organization never re-emits any contained Group event. -/
theorem c3_wildcard_forwarding_never_fires {α : Type}
    (events : List (String × List α)) (forwarder : α) (eventName : String)
    (h : eventName ≠ "*") :
    emitTargets (emitterOn events "*" forwarder) eventName =
      emitTargets events eventName := by
  unfold emitterOn emitTargets
  cases alookup events "*" with
  | none => rw [alookup_setKey_ne events eventName "*" _ h]
  | some ls => rw [alookup_setKey_ne events eventName "*" _ h]

theorem c3_wildcard_forwarding_never_fires_witness :
    ("JobStart" ≠ "*") ∧
      emitTargets (emitterOn ([] : List (String × List Nat)) "*" 0) "JobStart" =
        emitTargets ([] : List (String × List Nat)) "JobStart" :=
  ⟨by decide, c3_wildcard_forwarding_never_fires [] 0 "JobStart" (by decide)⟩

/-- Model of the JavaScript `String(v)` coercion on our value subset. -/
def jsToString : JSValue → String
  | .undefined => "undefined"
  | .null => "null"
  | .bool b => if b then "true" else "false"
  | .num n => toString n
  | .str s => s
  | .obj _ => "[object Object]"

def lbrChar : Char := Char.ofNat 123

def rbrChar : Char := Char.ofNat 125

def jsonEscapeChar (c : Char) : String :=
  if c == Char.ofNat 34 then "\\\""
  else if c == '\\' then "\\\\"
  else if c == '\n' then "\\n"
  else if c == '\t' then "\\t"
  else if c == '\r' then "\\r"
  else String.singleton c

/-- JSON string quoting as performed by `JSON.stringify` on the string
subset appearing in this development (no astral or control characters
beyond the escapes above). -/
def jsonQuote (s : String) : String :=
  "\"" ++ String.join (s.toList.map jsonEscapeChar) ++ "\""

def jsonIndent (n : Nat) : String := String.join (List.replicate n "  ")

mutual

/-- Model of `JSON.stringify(v, null, 2)`: members whose value serializes to
nothing (the undefined sentinel) are skipped, objects print with two-space
indentation per depth, an empty object prints without a newline. -/
def jsonStringifyCore : Nat → JSValue → Option String
  | _, .undefined => none
  | _, .null => some "null"
  | _, .bool b => some (if b then "true" else "false")
  | _, .num n => some (toString n)
  | _, .str s => some (jsonQuote s)
  | depth, .obj kvs =>
    let members := jsonMembers (depth + 1) kvs
    if members.isEmpty then
      some (String.singleton lbrChar ++ String.singleton rbrChar)
    else
      some (String.singleton lbrChar ++ "\n" ++ jsonIndent (depth + 1) ++
        String.intercalate (",\n" ++ jsonIndent (depth + 1)) members ++
        "\n" ++ jsonIndent depth ++ String.singleton rbrChar)

def jsonMembers : Nat → List (String × JSValue) → List String
  | _, [] => []
  | depth, kv :: rest =>
    match jsonStringifyCore depth kv.2 with
    | none => jsonMembers depth rest
    | some sv => (jsonQuote kv.1 ++ ": " ++ sv) :: jsonMembers depth rest

end

def jsonStringifyPretty (v : JSValue) : String :=
  (jsonStringifyCore 0 v).getD "undefined"

def isWordChar (c : Char) : Bool := c.isAlphanum || c == '_'

/-- Scanner for the template substitution
`template.replace(/\x7b\x7b(\w+)\x7d\x7d/g, ...)` of Team.js lines 241-243:
at each position, a double open brace followed by a non-empty run of word
characters and a double close brace is a placeholder; a resolved parameter
(value not the undefined sentinel) is replaced by its `String(...)`
coercion, an unresolved one keeps the literal placeholder text, and
scanning resumes after the match either way.  The fuel argument is an upper
bound on the number of scanning steps; each step consumes at least one
character, so fuel equal to the character count is always sufficient. -/
def templateReplaceAux (inputObj : JSValue) : Nat → List Char → List Char
  | 0, l => l
  | _ + 1, [] => []
  | fuel + 1, c :: cs =>
    if c == lbrChar then
      match cs with
      | c2 :: cs2 =>
        if c2 == lbrChar then
          let w := cs2.takeWhile isWordChar
          let r := cs2.dropWhile isWordChar
          if w.isEmpty then c :: templateReplaceAux inputObj fuel cs
          else
            match r with
            | d1 :: d2 :: r2 =>
              if d1 == rbrChar && d2 == rbrChar then
                (match getProp inputObj (String.mk w) with
                  | .undefined => c :: c2 :: (w ++ [d1, d2])
                  | v => (jsToString v).toList) ++ templateReplaceAux inputObj fuel r2
              else c :: templateReplaceAux inputObj fuel cs
            | _ => c :: templateReplaceAux inputObj fuel cs
        else c :: templateReplaceAux inputObj fuel cs
      | [] => [c]
    else c :: templateReplaceAux inputObj fuel cs

def templateReplace (tmpl : String) (inputObj : JSValue) : String :=
  String.mk (templateReplaceAux inputObj tmpl.toList.length tmpl.toList)

/-- Model of the agent-feed materialization of Team.js lines 237-254: with a
(non-empty) template, substitute placeholders; otherwise branch on the
number of keys of the prepared input object: exactly one key passes that
key's value (coerced to text by the trailing `String(...)` coercion of
lines 253-254, which is the identity on strings), several keys serialize
the whole object as pretty JSON, no keys yield the empty string. -/
def materializeAgentInput (inputPromptTemplate : Option String)
    (jobInputObject : JSValue) : String :=
  let inputKeys := jsKeys jobInputObject
  if optStrTruthy inputPromptTemplate then
    templateReplace (inputPromptTemplate.getD "") jobInputObject
  else if inputKeys.length == 1 then
    jsToString (getProp jobInputObject (inputKeys.headD ""))
  else if inputKeys.length != 0 then
    jsonStringifyPretty jobInputObject
  else
    ""

/-- Model of the result-storing logic of Team._executeJob, Team.js lines
263-271: a truthy outputKey on a non-null object result containing the key
stores the extracted field; a truthy outputKey on a non-object (or null)
result stores the raw result and emits a console warning (the Boolean);
every other case — including an object result that lacks the key — stores
the raw result silently. -/
def storeJobResult (outputKey : Option String) (agentResult : JSValue) :
    JSValue × Bool :=
  if optStrTruthy outputKey && isObjectTypeof agentResult && !isNullV agentResult
      && hasKeyIn agentResult (outputKey.getD "") then
    (getProp agentResult (outputKey.getD ""), false)
  else if optStrTruthy outputKey && (!isObjectTypeof agentResult || isNullV agentResult) then
    (agentResult, true)
  else
    (agentResult, false)

/-- Model of the step-result processing of the Agency run loop (source lines
189-197 for the parallel branch; the sequential branch at lines 249-256 is
identical): a truthy outputKey on a non-null object result containing the
key stores the extracted field; a truthy outputKey on a non-null object
result lacking the key stores the raw result and emits a console warning
(the Boolean); every other case — including a non-object result — stores
the raw result silently. -/
def processStepResult (outputKey : Option String) (result : JSValue) :
    JSValue × Bool :=
  if optStrTruthy outputKey && isObjectTypeof result && !isNullV result
      && hasKeyIn result (outputKey.getD "") then
    (getProp result (outputKey.getD ""), false)
  else if optStrTruthy outputKey && isObjectTypeof result && !isNullV result then
    (result, true)
  else
    (result, false)

/-- C7 counterexample: the claim asserts that whenever the raw result lacks
the declared outputKey a diagnostic is emitted.  At the Group (Team) level,
for the spec's own example — result `(a:1, b:2)` with `outputKey: "c"` —
the stored result is the full raw object but NO diagnostic fires (the
console warning of Team.js line 266 is reached only when the result is not
an object): the second component below is `false`. -/
theorem c7_team_absent_key_no_diagnostic :
    storeJobResult (some "c") (JSValue.obj [("a", JSValue.num 1), ("b", JSValue.num 2)]) =
      (JSValue.obj [("a", JSValue.num 1), ("b", JSValue.num 2)], false) := by
  rfl

/-- C7 amended: for every truthy outputKey, extraction is total and never a
hard failure, and the stored result is the extracted field when the raw
result is a non-null object containing the key and the full raw result in
every other case; but the diagnostic fires only in one sub-case per level —
at the Group level exactly when the result is not a non-null object, and at
the Organization level exactly when the result is a non-null object lacking
the key. -/
theorem c7_output_key_extraction (key : String) (res : JSValue) (hkey : key ≠ "") :
    (isObjectTypeof res = true → isNullV res = false →
        hasKeyIn res key = true →
        storeJobResult (some key) res = (getProp res key, false) ∧
        processStepResult (some key) res = (getProp res key, false)) ∧
    ((isObjectTypeof res = false ∨ isNullV res = true) →
        storeJobResult (some key) res = (res, true) ∧
        processStepResult (some key) res = (res, false)) ∧
    (isObjectTypeof res = true → isNullV res = false → hasKeyIn res key = false →
        storeJobResult (some key) res = (res, false) ∧
        processStepResult (some key) res = (res, true)) := by
  have hk : optStrTruthy (some key) = true := by
    simp [optStrTruthy, hkey]
  refine ⟨?_, ?_, ?_⟩
  · intro h1 h2 h3
    constructor
    · simp [storeJobResult, hk, h1, h2, h3]
    · simp [processStepResult, hk, h1, h2, h3]
  · intro h
    rcases h with h | h
    · constructor
      · simp [storeJobResult, hk, h]
      · simp [processStepResult, hk, h]
    · have hobj : isObjectTypeof res = true := by
        cases res <;> simp_all [isNullV, isObjectTypeof]
      constructor
      · simp [storeJobResult, hk, h]
      · simp [processStepResult, hk, h, hobj]
  · intro h1 h2 h3
    constructor
    · simp [storeJobResult, hk, h1, h2, h3]
    · simp [processStepResult, hk, h1, h2, h3]

theorem c7_output_key_extraction_witness :
    ("b" ≠ "") ∧
      storeJobResult (some "b") (JSValue.obj [("a", JSValue.num 1), ("b", JSValue.num 2)]) =
        (getProp (JSValue.obj [("a", JSValue.num 1), ("b", JSValue.num 2)]) "b", false) :=
  ⟨by decide,
    ((c7_output_key_extraction "b"
        (JSValue.obj [("a", JSValue.num 1), ("b", JSValue.num 2)])
        (by decide)).1 (by rfl) (by rfl) (by rfl)).1⟩

/-- A thrown JavaScript error as observed by the executor's catch blocks:
its human-readable message and its diagnostic stack trace. -/
structure JsError where
  message : String
  stack : String

/-- The external Unit collaborator behind an Agent: an oracle from the
materialized textual input and the shared context to either a result value
or a thrown error (the engine treats the call as opaque). -/
def AgentBehavior : Type := String → JSValue → Except JsError JSValue

/-- A Job definition as read by Team.js: the target agent name plus the
optional inputMapping, inputPromptTemplate and outputKey fields and the
parallel marker (absent JS fields are none / false). -/
structure Job where
  agentName : String
  inputMapping : Option (List (String × String))
  inputPromptTemplate : Option String
  outputKey : Option String
  parallel : Bool

/-- The Team (Group) instance state relevant to running: registered agents
(each with its external behavior), job definitions, the declared workflow
order, and the `results` instance field (a previous run's results, or the
constructor's empty object). -/
structure Team where
  name : String
  agents : List (String × AgentBehavior)
  jobs : List (String × Job)
  workflow : List String
  results : JSValue

/-- Model of Team._prepareJobInput (Team.js lines 76-115).  Without an
inputMapping: the raw initial inputs are (spread-)copied exactly when the
job is the first workflow entry and the initial inputs are truthy with at
least one key, otherwise an empty object.  With an inputMapping: each
parameter resolves its dot-path against the sources object whose `results`
scope is the INSTANCE field `this.results` (not the current run's
accumulator — see claim C1). -/
def Team.prepareJobInput (t : Team) (jobName : String) (initialInputs : JSValue) :
    JSValue :=
  match alookup t.jobs jobName with
  | none => JSValue.obj []
  | some job =>
    match job.inputMapping with
    | none =>
      if (t.workflow.head? == some jobName) && jsTruthy initialInputs
          && !(jsKeys initialInputs).isEmpty then
        spreadObj initialInputs
      else JSValue.obj []
    | some mapping =>
      let sources := JSValue.obj
        [("initialInputs", initialInputs), ("results", t.results)]
      JSValue.obj (mapping.foldl
        (fun acc kv => setKey acc kv.1 (resolveValue kv.2 sources)) [])

/-- The value Team._executeJob (Team.js lines 212-281) records under the
job's name: the agent-not-found error record when the agent name is
unregistered; otherwise the processed result of feeding the materialized
input to the agent, or the `(error, details)` record when the agent call
throws.  The record is written in every path, so the written value is a
pure function of the job and the team state (independent of the in-run
accumulator). -/
def Team.jobOutcome (t : Team) (initialInputs ctx : JSValue)
    (jobName : String) (job : Job) : JSValue :=
  match alookup t.agents job.agentName with
  | none => JSValue.obj [("error", JSValue.str
      ("Agent " ++ job.agentName ++ " not found for job " ++ jobName ++ "."))]
  | some behavior =>
    let jobInputObject := t.prepareJobInput jobName initialInputs
    let agentFeedInput := materializeAgentInput job.inputPromptTemplate jobInputObject
    match behavior agentFeedInput ctx with
    | Except.ok agentResult => (storeJobResult job.outputKey agentResult).1
    | Except.error e => JSValue.obj
        [("error", JSValue.str e.message), ("details", JSValue.str e.stack)]

/-- The adjacent-parallel-job scan of Team.run (Team.js lines 154-166):
collect workflow entries while the entry's job definition exists and is
parallel-marked; stop at the first entry that is missing or sequential. -/
def Team.collectParallel (t : Team) : List String → List (String × Job) × List String
  | [] => ([], [])
  | n :: rest =>
    match alookup t.jobs n with
    | some j =>
      if j.parallel then
        let gr := Team.collectParallel t rest
        ((n, j) :: gr.1, gr.2)
      else ([], n :: rest)
    | none => ([], n :: rest)

/-- The join of a Team parallel batch in the event-loop schedule where the
dispatched jobs settle in dispatch order: every member's outcome is
recorded under its own name (each member writes only its own slot). -/
def Team.runBatch (t : Team) (initialInputs ctx : JSValue)
    (batch : List (String × Job)) (acc : List (String × JSValue)) :
    List (String × JSValue) :=
  batch.foldl (fun a nj => setKey a nj.1 (t.jobOutcome initialInputs ctx nj.1 nj.2)) acc

/-- The full-workflow while loop of Team.run (Team.js lines 139-193) in the
event-loop schedule where dispatched jobs settle in dispatch order: a
missing job definition records a not-found error record and advances; a
parallel-marked entry collects its maximal adjacent batch, records every
member's outcome in dispatch order, and advances past the batch; a
sequential entry records its outcome and advances.  The fuel argument is an
upper bound on loop iterations; each iteration consumes at least one entry,
so fuel equal to the entry count is always sufficient. -/
def Team.runEntries (t : Team) (initialInputs ctx : JSValue) :
    Nat → List String → List (String × JSValue) → List (String × JSValue)
  | 0, _, acc => acc
  | _ + 1, [], acc => acc
  | fuel + 1, n :: rest, acc =>
    match alookup t.jobs n with
    | none => Team.runEntries t initialInputs ctx fuel rest
        (setKey acc n (JSValue.obj
          [("error", JSValue.str ("Job " ++ n ++ " not found."))]))
    | some j =>
      if j.parallel then
        let gr := Team.collectParallel t rest
        Team.runEntries t initialInputs ctx fuel gr.2
          (Team.runBatch t initialInputs ctx ((n, j) :: gr.1) acc)
      else
        Team.runEntries t initialInputs ctx fuel rest
          (setKey acc n (t.jobOutcome initialInputs ctx n j))

/-- The results store produced by a full-workflow Team.run call. -/
def Team.fullRunStore (t : Team) (initialInputs ctx : JSValue) :
    List (String × JSValue) :=
  Team.runEntries t initialInputs ctx t.workflow.length t.workflow []

/-- Model of Team.run (Team.js lines 117-200).  A truthy jobNameToRun
selects single-job mode: an unknown name yields the not-found error record,
a known one yields just that job's processed result; otherwise the full
declared workflow runs and the keyed results mapping is returned.  In every
path the source returns `this.results` after assigning it, so the returned
value is also the post-run value of the instance's results field. -/
def Team.runModel (t : Team) (initialInputs ctx : JSValue)
    (jobNameToRun : Option String) : JSValue :=
  if optStrTruthy jobNameToRun then
    let jn := jobNameToRun.getD ""
    match alookup t.jobs jn with
    | none => JSValue.obj [("error", JSValue.str ("Job " ++ jn ++ " not found."))]
    | some job => t.jobOutcome initialInputs ctx jn job
  else
    JSValue.obj (Team.fullRunStore t initialInputs ctx)

/-- An external unit that echoes its materialized input back as a string. -/
def echoBehavior : AgentBehavior := fun input _ => Except.ok (JSValue.str input)

/-- An external unit that returns its input tagged with a marker prefix, so
its output is distinguishable from the raw input in the results store. -/
def tagABehavior : AgentBehavior := fun input _ => Except.ok (JSValue.str ("A:" ++ input))

/-- The Group of the C1 scenario: workflow [jobA (no mapping, first),
jobB (inputMapping x -> results.jobA)], fresh instance (results = empty). -/
def teamC1 : Team :=
  ⟨"teamC1", [("agA", tagABehavior), ("agB", echoBehavior)],
    [("jobA", ⟨"agA", none, none, none, false⟩),
     ("jobB", ⟨"agB", some [("x", "results.jobA")], none, none, false⟩)],
    ["jobA", "jobB"], JSValue.obj []⟩

/-- C1 (code vs. claim): evaluating the C1 scenario on a fresh Group.  jobA
does receive the raw initial inputs (first conjunct, the true half of the
claim), but jobB's parameter x resolves to the UNDEFINED sentinel (second
conjunct), not to jobA's stored result: `_prepareJobInput` reads the
`results` scope from the instance field `this.results`, while the run loop
accumulates results in the separate `teamRunResults` object that is
assigned to `this.results` only after the loop.  Consequently the whole run
stores the echo of the string "undefined" as jobB's result (third
conjunct) instead of jobA's tagged output "A:hi". -/
theorem c1_jobB_sees_stale_results :
    Team.prepareJobInput teamC1 "jobA" (JSValue.obj [("q", JSValue.str "hi")]) =
      JSValue.obj [("q", JSValue.str "hi")] ∧
    Team.prepareJobInput teamC1 "jobB" (JSValue.obj [("q", JSValue.str "hi")]) =
      JSValue.obj [("x", JSValue.undefined)] ∧
    Team.runModel teamC1 (JSValue.obj [("q", JSValue.str "hi")]) (JSValue.obj []) none =
      JSValue.obj [("jobA", JSValue.str "A:hi"), ("jobB", JSValue.str "undefined")] :=
  ⟨rfl, rfl, rfl⟩

/-- A job whose inputMapping has two parameters of which only one resolves,
used to exercise the materialization branches. -/
def teamC8 : Team :=
  ⟨"teamC8", [("e", echoBehavior)],
    [("j", ⟨"e", some [("a", "initialInputs.a"), ("b", "initialInputs.missing")],
      none, none, false⟩)],
    ["j"], JSValue.obj []⟩

/-- C8 counterexample: with inputMapping (a -> initialInputs.a,
b -> initialInputs.missing) and initial inputs containing only a, exactly
one parameter resolves — yet the payload handed to the Unit is NOT that
value coerced to text.  The code branches on the number of keys of the
prepared input object (the unresolved key b is still a key), so the payload
is the pretty-JSON serialization (from which JSON.stringify drops the
undefined member), not "v" as the claim requires. -/
theorem c8_single_resolved_param_not_passed_directly :
    Team.prepareJobInput teamC8 "j" (JSValue.obj [("a", JSValue.str "v")]) =
      JSValue.obj [("a", JSValue.str "v"), ("b", JSValue.undefined)] ∧
    materializeAgentInput none
        (JSValue.obj [("a", JSValue.str "v"), ("b", JSValue.undefined)]) =
      "\x7b\n  \"a\": \"v\"\n\x7d" ∧
    materializeAgentInput none
        (JSValue.obj [("a", JSValue.str "v"), ("b", JSValue.undefined)]) ≠ "v" :=
  ⟨rfl, rfl, by decide⟩

/-- C8 amended: materialization branches on the number of PARAMETERS of the
prepared input object (resolved or not), not on the number of resolved
ones: a declared template is applied with resolved placeholders substituted
and unresolved ones left literal; otherwise exactly one parameter passes
its value coerced to text (so a single unresolved parameter passes the text
"undefined"), more than one parameter serializes the object as pretty JSON
(unresolved members being dropped by the serializer), and no parameters
yield the empty string. -/
theorem c8_materialization_rule (inputObj : JSValue) :
    (∀ k, jsKeys inputObj = [k] →
        materializeAgentInput none inputObj = jsToString (getProp inputObj k)) ∧
    (1 < (jsKeys inputObj).length →
        materializeAgentInput none inputObj = jsonStringifyPretty inputObj) ∧
    (jsKeys inputObj = [] → materializeAgentInput none inputObj = "") ∧
    (templateReplace "Say \x7b\x7bname\x7d\x7d now"
        (JSValue.obj [("name", JSValue.str "Bob")]) = "Say Bob now") ∧
    (templateReplace "Say \x7b\x7bname\x7d\x7d now"
        (JSValue.obj []) = "Say \x7b\x7bname\x7d\x7d now") ∧
    (∀ tmpl, tmpl ≠ "" →
        materializeAgentInput (some tmpl) inputObj = templateReplace tmpl inputObj) := by
  refine ⟨?_, ?_, ?_, by rfl, by rfl, ?_⟩
  · intro k h
    simp [materializeAgentInput, optStrTruthy, h]
  · intro h
    have h1 : ((jsKeys inputObj).length == 1) = false := by
      simp only [beq_eq_false_iff_ne]
      omega
    have h0 : ((jsKeys inputObj).length != 0) = true := by
      simp only [bne_iff_ne]
      omega
    simp [materializeAgentInput, optStrTruthy, h1, h0]
  · intro h
    simp [materializeAgentInput, optStrTruthy, h]
  · intro tmpl h
    simp [materializeAgentInput, optStrTruthy, h]

theorem c8_materialization_rule_witness :
    materializeAgentInput none (JSValue.obj [("q", JSValue.str "hi")]) =
      jsToString (getProp (JSValue.obj [("q", JSValue.str "hi")]) "q") :=
  (c8_materialization_rule (JSValue.obj [("q", JSValue.str "hi")])).1 "q" (by rfl)

/-- A Step definition of an Organization workflow: optional display name,
the target team, the optional workflowName forwarded to the Group as its
jobNameToRun, plus inputMapping, outputKey and the parallel marker. -/
structure Step where
  name : Option String
  teamName : String
  workflowName : Option String
  inputMapping : Option (List (String × String))
  outputKey : Option String
  parallel : Bool

/-- The Agency (Organization) instance state relevant to running: the
registered teams, the workflow definitions (each a list of steps), and the
per-workflow results store instance field. -/
structure Agency where
  name : String
  teams : List (String × Team)
  workflows : List (String × List Step)
  results : List (String × JSValue)

/-- Model of Agency._prepareStepInput (source lines 110-133): WITHOUT an
inputMapping the raw initial-inputs value is returned as-is (no first-entry
or emptiness condition — contrast Team._prepareJobInput); with one, each
parameter resolves its dot-path against initialInputs, the current run's
step results, and the shared context. -/
def Agency.prepareStepInput (step : Step) (initialInputs : JSValue)
    (stepResults : List (String × JSValue)) (ctx : JSValue) : JSValue :=
  match step.inputMapping with
  | none => initialInputs
  | some mapping =>
    let sources := JSValue.obj
      [("initialInputs", initialInputs), ("results", JSValue.obj stepResults),
       ("context", ctx)]
    JSValue.obj (mapping.foldl
      (fun acc kv => setKey acc kv.1 (resolveValue kv.2 sources)) [])

/-- The default step display name `step.name || stepN` (N is the one-based
workflow position). -/
def stepNameAt (s : Step) (i : Nat) : String :=
  if optStrTruthy s.name then s.name.getD "" else "step" ++ toString (i + 1)

/-- The value a SEQUENTIAL Agency workflow step stores under its name
(source lines 230-263): a missing team yields the `(error)` record (no
details key); otherwise the step input is prepared against the results
accumulated so far, the team runs with the step's workflowName as its
jobNameToRun, and the result passes outputKey processing.  The modelled
team run is total, matching the source where every per-job failure is
caught inside the Team. -/
def Agency.seqStepOutcome (ag : Agency) (initialInputs ctx : JSValue)
    (stepResults : List (String × JSValue)) (step : Step) : JSValue :=
  match alookup ag.teams step.teamName with
  | none => JSValue.obj
      [("error", JSValue.str ("Team '" ++ step.teamName ++ "' not found."))]
  | some team =>
    let stepInput := Agency.prepareStepInput step initialInputs stepResults ctx
    let result := team.runModel stepInput ctx step.workflowName
    (processStepResult step.outputKey result).1

/-- The value a PARALLEL Agency workflow step stores under its name (source
lines 171-215): a missing team produces `(stepName, error)` which the join
records as an `(error, details: undefined)` record; a successful member
records its processed data.  Every member prepares its input against the
results as of the batch start. -/
def Agency.parStepOutcome (ag : Agency) (initialInputs ctx : JSValue)
    (stepResults : List (String × JSValue)) (step : Step) : JSValue :=
  match alookup ag.teams step.teamName with
  | none => JSValue.obj
      [("error", JSValue.str ("Team '" ++ step.teamName ++ "' not found.")),
       ("details", JSValue.undefined)]
  | some team =>
    let stepInput := Agency.prepareStepInput step initialInputs stepResults ctx
    let result := team.runModel stepInput ctx step.workflowName
    (processStepResult step.outputKey result).1

/-- The adjacent-parallel-step scan of Agency.run (source lines 159-167):
collect steps (with their zero-based positions, used for default names)
while they are parallel-marked. -/
def collectParSteps : List Step → Nat → List (Step × Nat) × (List Step × Nat)
  | [], i => ([], ([], i))
  | s :: rest, i =>
    if s.parallel then
      let gr := collectParSteps rest (i + 1)
      ((s, i) :: gr.1, gr.2)
    else ([], (s :: rest, i))

/-- The step loop of Agency.run (source lines 154-265) in the event-loop
schedule where dispatched steps settle in dispatch order: a parallel-marked
step collects its maximal adjacent batch, records every member's outcome in
dispatch order (each prepared against the results as of the batch start),
and advances past the batch; a sequential step records its outcome and
advances.  Fuel as in Team.runEntries. -/
def Agency.runSteps (ag : Agency) (initialInputs ctx : JSValue) :
    Nat → List Step → Nat → List (String × JSValue) → List (String × JSValue)
  | 0, _, _, acc => acc
  | _ + 1, [], _, acc => acc
  | fuel + 1, s :: rest, i, acc =>
    if s.parallel then
      let gr := collectParSteps rest (i + 1)
      let batch := (s, i) :: gr.1
      let acc' := batch.foldl
        (fun a si => setKey a (stepNameAt si.1 si.2)
          (Agency.parStepOutcome ag initialInputs ctx acc si.1)) acc
      Agency.runSteps ag initialInputs ctx fuel gr.2.1 gr.2.2 acc'
    else
      Agency.runSteps ag initialInputs ctx fuel rest (i + 1)
        (setKey acc (stepNameAt s i)
          (Agency.seqStepOutcome ag initialInputs ctx acc s))

/-- Model of Agency.run (source lines 142-270).  An unregistered workflow
name throws immediately — before any step executes and before anything is
written — so the outcome is the error and the instance's results store is
unchanged.  Otherwise the steps run, the keyed step-results mapping is
returned, and it is also recorded in the instance's results store under the
workflow name. -/
def Agency.runModel (ag : Agency) (workflowName : String)
    (initialInputs initialContext : JSValue) :
    Except String JSValue × List (String × JSValue) :=
  match alookup ag.workflows workflowName with
  | none => (Except.error ("Workflow '" ++ workflowName ++ "' not found."), ag.results)
  | some steps =>
    let stepResults := Agency.runSteps ag initialInputs initialContext
      steps.length steps 0 []
    (Except.ok (JSValue.obj stepResults),
      setKey ag.results workflowName (JSValue.obj stepResults))

/-- C5: invoking an Organization run with an unregistered workflow name
rejects the whole call with the not-found error and writes nothing: the
instance's results store after the call is exactly what it was before. -/
theorem c5_unknown_workflow_rejects (ag : Agency) (w : String)
    (initialInputs initialContext : JSValue)
    (h : alookup ag.workflows w = none) :
    (Agency.runModel ag w initialInputs initialContext).1 =
        Except.error ("Workflow '" ++ w ++ "' not found.") ∧
      (Agency.runModel ag w initialInputs initialContext).2 = ag.results := by
  simp [Agency.runModel, h]

theorem c5_unknown_workflow_rejects_witness :
    (Agency.runModel ⟨"ag", [], [], []⟩ "noSuchWorkflow"
        (JSValue.obj []) (JSValue.obj [])).1 =
        Except.error "Workflow 'noSuchWorkflow' not found." ∧
      (Agency.runModel ⟨"ag", [], [], []⟩ "noSuchWorkflow"
        (JSValue.obj []) (JSValue.obj [])).2 = [] := by
  have h := c5_unknown_workflow_rejects ⟨"ag", [], [], []⟩ "noSuchWorkflow"
    (JSValue.obj []) (JSValue.obj []) (by rfl)
  exact h

/-- C10: single-job mode at the Group level CONTAINS the unknown-name
error: Team.run invoked with a truthy jobNameToRun that names no registered
Job resolves (the model is total) and returns the error record — which the
source also assigns to the instance's results field before returning it —
whereas the Organization's run with an unknown workflow name rejects the
whole call (second conjunct). -/
theorem c10_single_job_not_found_resolves (t : Team) (initialInputs ctx : JSValue)
    (jn : String) (hjn : jn ≠ "") (h : alookup t.jobs jn = none) :
    Team.runModel t initialInputs ctx (some jn) =
        JSValue.obj [("error", JSValue.str ("Job " ++ jn ++ " not found."))] ∧
      ∀ (ag : Agency) (w : String) (ii ictx : JSValue),
        alookup ag.workflows w = none →
        (Agency.runModel ag w ii ictx).1 =
          Except.error ("Workflow '" ++ w ++ "' not found.") := by
  constructor
  · simp [Team.runModel, optStrTruthy, hjn, h]
  · intro ag w ii ictx hw
    simp [Agency.runModel, hw]

theorem c10_single_job_not_found_resolves_witness :
    Team.runModel ⟨"t", [], [], [], JSValue.obj []⟩ (JSValue.obj []) (JSValue.obj [])
        (some "ghost") =
      JSValue.obj [("error", JSValue.str "Job ghost not found.")] :=
  (c10_single_job_not_found_resolves ⟨"t", [], [], [], JSValue.obj []⟩
    (JSValue.obj []) (JSValue.obj []) "ghost" (by decide) (by rfl)).1

/-- A one-job Group whose single job echoes its materialized input. -/
def teamEchoOne : Team :=
  ⟨"T", [("e", echoBehavior)], [("j", ⟨"e", none, none, none, false⟩)], ["j"],
    JSValue.obj []⟩

/-- An Organization whose workflow runs the echo Group twice; neither step
declares an inputMapping and the second step is NOT the first entry. -/
def agencyC4 : Agency :=
  ⟨"agC4", [("T", teamEchoOne)],
    [("wf", [⟨some "s1", "T", none, none, none, false⟩,
             ⟨some "s2", "T", none, none, none, false⟩])],
    []⟩

/-- C4 counterexample: run the two-step Organization workflow with
non-empty initial inputs.  The claim requires the second, non-first
unmapped step to receive an EMPTY input object, which would make its echo
job store the empty string; instead the code hands every unmapped step the
raw initial inputs verbatim, so s2 stores the echo of "hi" — the recorded
value differs from the one the claim forces (second conjunct). -/
theorem c4_agency_unmapped_step_gets_initial_inputs :
    (Agency.runModel agencyC4 "wf" (JSValue.obj [("q", JSValue.str "hi")])
        (JSValue.obj [])).1 =
      Except.ok (JSValue.obj
        [("s1", JSValue.obj [("j", JSValue.str "hi")]),
         ("s2", JSValue.obj [("j", JSValue.str "hi")])]) ∧
    JSValue.obj [("j", JSValue.str "hi")] ≠ JSValue.obj [("j", JSValue.str "")] :=
  ⟨rfl, by simp⟩

/-- C4 amended: the first-entry pass-through rule holds at the Group level
only.  A Group job with no inputMapping receives the (spread-copied) raw
initial inputs exactly when it is the first workflow entry and the initial
inputs are truthy with at least one key, and an empty object otherwise; an
Organization step with no inputMapping ALWAYS receives the raw
initial-inputs value verbatim, regardless of its position and of whether
the initial inputs are empty. -/
theorem c4_unmapped_input_rule (t : Team) (jobName : String) (job : Job)
    (initialInputs : JSValue)
    (hjob : alookup t.jobs jobName = some job)
    (hmap : job.inputMapping = none) :
    (t.workflow.head? = some jobName → jsTruthy initialInputs = true →
        jsKeys initialInputs ≠ [] →
        Team.prepareJobInput t jobName initialInputs = spreadObj initialInputs) ∧
    (t.workflow.head? ≠ some jobName ∨ jsKeys initialInputs = [] →
        Team.prepareJobInput t jobName initialInputs = JSValue.obj []) ∧
    (∀ (step : Step) (stepResults : List (String × JSValue)) (ctx : JSValue),
        step.inputMapping = none →
        Agency.prepareStepInput step initialInputs stepResults ctx = initialInputs) := by
  refine ⟨?_, ?_, ?_⟩
  · intro h1 h2 h3
    simp [Team.prepareJobInput, hjob, hmap, h1, h2, h3]
  · intro h
    rcases h with h | h
    · simp [Team.prepareJobInput, hjob, hmap, h]
    · simp [Team.prepareJobInput, hjob, hmap, h]
  · intro step sr ctx hsm
    simp [Agency.prepareStepInput, hsm]

theorem c4_unmapped_input_rule_witness :
    Team.prepareJobInput teamEchoOne "j" (JSValue.obj [("q", JSValue.str "hi")]) =
        spreadObj (JSValue.obj [("q", JSValue.str "hi")]) ∧
      Agency.prepareStepInput ⟨some "s2", "T", none, none, none, false⟩
        (JSValue.obj [("q", JSValue.str "hi")]) [] (JSValue.obj []) =
        JSValue.obj [("q", JSValue.str "hi")] :=
  ⟨(c4_unmapped_input_rule teamEchoOne "j" ⟨"e", none, none, none, false⟩
      (JSValue.obj [("q", JSValue.str "hi")]) (by rfl) (by rfl)).1
      (by rfl) (by rfl) (by simp [jsKeys]),
   ((c4_unmapped_input_rule teamEchoOne "j" ⟨"e", none, none, none, false⟩
      (JSValue.obj [("q", JSValue.str "hi")]) (by rfl) (by rfl)).2.2
      ⟨some "s2", "T", none, none, none, false⟩ [] (JSValue.obj []) (by rfl))⟩

theorem runBatch_nil (t : Team) (ii ctx : JSValue) (acc : List (String × JSValue)) :
    Team.runBatch t ii ctx [] acc = acc := rfl

theorem runBatch_cons (t : Team) (ii ctx : JSValue) (nj : String × Job)
    (rest : List (String × Job)) (acc : List (String × JSValue)) :
    Team.runBatch t ii ctx (nj :: rest) acc =
      Team.runBatch t ii ctx rest
        (setKey acc nj.1 (t.jobOutcome ii ctx nj.1 nj.2)) := rfl

theorem collectParallel_cover (t : Team) (l : List String) :
    ((Team.collectParallel t l).1.map Prod.fst) ++ (Team.collectParallel t l).2 = l := by
  induction l with
  | nil => rfl
  | cons n rest ih =>
    cases halo : alookup t.jobs n with
    | none => simp [Team.collectParallel, halo]
    | some j =>
      by_cases hp : j.parallel
      · simp only [Team.collectParallel, halo, hp, if_true, List.map_cons,
          List.cons_append, List.cons.injEq]
        exact ⟨trivial, ih⟩
      · simp [Team.collectParallel, halo, hp]

theorem collectParallel_pairs (t : Team) :
    ∀ (l : List String) (nj : String × Job), nj ∈ (Team.collectParallel t l).1 →
      alookup t.jobs nj.1 = some nj.2 := by
  intro l
  induction l with
  | nil => intro nj h; simp [Team.collectParallel] at h
  | cons n rest ih =>
    intro nj h
    cases halo : alookup t.jobs n with
    | none => simp [Team.collectParallel, halo] at h
    | some j =>
      by_cases hp : j.parallel
      · simp only [Team.collectParallel, halo, hp, if_true, List.mem_cons] at h
        rcases h with h | h
        · subst h; simpa using halo
        · exact ih nj h
      · simp [Team.collectParallel, halo, hp] at h

theorem collectParallel_snd_length (t : Team) (l : List String) :
    (Team.collectParallel t l).2.length ≤ l.length := by
  induction l with
  | nil => simp [Team.collectParallel]
  | cons n rest ih =>
    cases halo : alookup t.jobs n with
    | none => simp [Team.collectParallel, halo]
    | some j =>
      by_cases hp : j.parallel
      · simp only [Team.collectParallel, halo, hp, if_true]
        exact le_trans ih (by simp)
      · simp [Team.collectParallel, halo, hp]

theorem runBatch_lookup_notmem (t : Team) (ii ctx : JSValue)
    (batch : List (String × Job)) (acc : List (String × JSValue)) (n : String)
    (h : n ∉ batch.map Prod.fst) :
    alookup (Team.runBatch t ii ctx batch acc) n = alookup acc n := by
  induction batch generalizing acc with
  | nil => rfl
  | cons nj rest ih =>
    simp only [List.map_cons, List.mem_cons, not_or] at h
    rw [runBatch_cons, ih _ (fun hx => h.2 hx),
      alookup_setKey_ne _ _ _ _ h.1]

theorem runBatch_lookup_mem (t : Team) (ii ctx : JSValue)
    (batch : List (String × Job)) (acc : List (String × JSValue)) (n : String)
    (v : JSValue)
    (hall : ∀ nj ∈ batch, nj.1 = n → t.jobOutcome ii ctx nj.1 nj.2 = v)
    (hsrc : n ∈ batch.map Prod.fst ∨ alookup acc n = some v) :
    alookup (Team.runBatch t ii ctx batch acc) n = some v := by
  induction batch generalizing acc with
  | nil =>
    rcases hsrc with h | h
    · simp at h
    · simpa [runBatch_nil] using h
  | cons nj rest ih =>
    rw [runBatch_cons]
    refine ih _ (fun x hx hn => hall x (List.mem_cons_of_mem _ hx) hn) ?_
    by_cases hmem : n ∈ rest.map Prod.fst
    · exact Or.inl hmem
    · right
      rcases hsrc with h | h
      · simp only [List.map_cons, List.mem_cons] at h
        rcases h with h | h
        · rw [h, alookup_setKey_self, hall nj (List.mem_cons_self _ _) h.symm]
        · exact absurd h hmem
      · by_cases he : nj.1 = n
        · subst he
          rw [alookup_setKey_self, hall nj (List.mem_cons_self _ _) rfl]
        · rw [alookup_setKey_ne _ _ _ _ (fun hh => he hh.symm)]
          exact h

theorem runBatch_lookup_isSome (t : Team) (ii ctx : JSValue)
    (batch : List (String × Job)) (acc : List (String × JSValue)) (n : String)
    (hsrc : n ∈ batch.map Prod.fst ∨ (alookup acc n).isSome) :
    (alookup (Team.runBatch t ii ctx batch acc) n).isSome := by
  induction batch generalizing acc with
  | nil =>
    rcases hsrc with h | h
    · simp at h
    · simpa [runBatch_nil] using h
  | cons nj rest ih =>
    rw [runBatch_cons]
    apply ih
    by_cases hmem : n ∈ rest.map Prod.fst
    · exact Or.inl hmem
    · right
      rcases hsrc with h | h
      · simp only [List.map_cons, List.mem_cons] at h
        rcases h with h | h
        · rw [h, alookup_setKey_self]; rfl
        · exact absurd h hmem
      · exact alookup_setKey_isSome _ _ _ _ h

theorem runEntries_cons_notfound (t : Team) (ii ctx : JSValue) (fuel : Nat)
    (n : String) (rest : List String) (acc : List (String × JSValue))
    (h : alookup t.jobs n = none) :
    Team.runEntries t ii ctx (fuel + 1) (n :: rest) acc =
      Team.runEntries t ii ctx fuel rest
        (setKey acc n (JSValue.obj
          [("error", JSValue.str ("Job " ++ n ++ " not found."))])) := by
  simp [Team.runEntries, h]

theorem runEntries_cons_par (t : Team) (ii ctx : JSValue) (fuel : Nat)
    (n : String) (rest : List String) (acc : List (String × JSValue)) (j : Job)
    (hj : alookup t.jobs n = some j) (hp : j.parallel = true) :
    Team.runEntries t ii ctx (fuel + 1) (n :: rest) acc =
      Team.runEntries t ii ctx fuel (Team.collectParallel t rest).2
        (Team.runBatch t ii ctx ((n, j) :: (Team.collectParallel t rest).1) acc) := by
  simp [Team.runEntries, hj, hp]

theorem runEntries_cons_seq (t : Team) (ii ctx : JSValue) (fuel : Nat)
    (n : String) (rest : List String) (acc : List (String × JSValue)) (j : Job)
    (hj : alookup t.jobs n = some j) (hp : j.parallel = false) :
    Team.runEntries t ii ctx (fuel + 1) (n :: rest) acc =
      Team.runEntries t ii ctx fuel rest
        (setKey acc n (t.jobOutcome ii ctx n j)) := by
  simp [Team.runEntries, hj, hp]

theorem runEntries_lookup_notmem (t : Team) (ii ctx : JSValue) :
    ∀ (fuel : Nat) (l : List String) (acc : List (String × JSValue)) (n : String),
      n ∉ l →
      alookup (Team.runEntries t ii ctx fuel l acc) n = alookup acc n := by
  intro fuel
  induction fuel with
  | zero => intro l acc n _; rfl
  | succ fuel ih =>
    intro l acc n h
    cases l with
    | nil => rfl
    | cons n0 rest =>
      have hne : n ≠ n0 := fun hh => h (hh ▸ List.mem_cons_self _ _)
      have hnr : n ∉ rest := fun hh => h (List.mem_cons_of_mem _ hh)
      cases hj : alookup t.jobs n0 with
      | none =>
        rw [runEntries_cons_notfound t ii ctx fuel n0 rest acc hj,
          ih _ _ _ hnr, alookup_setKey_ne _ _ _ _ hne]
      | some j =>
        by_cases hp : j.parallel
        · rw [runEntries_cons_par t ii ctx fuel n0 rest acc j hj hp]
          have hcover := collectParallel_cover t rest
          have hnotg : n ∉ (Team.collectParallel t rest).1.map Prod.fst :=
            fun hx => hnr (hcover ▸ List.mem_append_left _ hx)
          have hnotr : n ∉ (Team.collectParallel t rest).2 :=
            fun hx => hnr (hcover ▸ List.mem_append_right _ hx)
          rw [ih _ _ _ hnotr]
          apply runBatch_lookup_notmem
          simp only [List.map_cons, List.mem_cons, not_or]
          exact ⟨hne, hnotg⟩
        · have hp' : j.parallel = false := by simpa using hp
          rw [runEntries_cons_seq t ii ctx fuel n0 rest acc j hj hp',
            ih _ _ _ hnr, alookup_setKey_ne _ _ _ _ hne]

theorem runEntries_lookup_isSome (t : Team) (ii ctx : JSValue) :
    ∀ (fuel : Nat) (l : List String) (acc : List (String × JSValue)) (n : String),
      l.length ≤ fuel →
      (n ∈ l ∨ (alookup acc n).isSome) →
      (alookup (Team.runEntries t ii ctx fuel l acc) n).isSome := by
  intro fuel
  induction fuel with
  | zero =>
    intro l acc n hlen hsrc
    have hl : l = [] := List.eq_nil_of_length_eq_zero (Nat.le_zero.mp hlen)
    subst hl
    rcases hsrc with h | h
    · simp at h
    · simpa using h
  | succ fuel ih =>
    intro l acc n hlen hsrc
    cases l with
    | nil =>
      rcases hsrc with h | h
      · simp at h
      · simpa using h
    | cons n0 rest =>
      have hlen' : rest.length ≤ fuel := by
        simp only [List.length_cons] at hlen
        omega
      cases hj : alookup t.jobs n0 with
      | none =>
        rw [runEntries_cons_notfound t ii ctx fuel n0 rest acc hj]
        apply ih _ _ _ hlen'
        rcases hsrc with h | h
        · rcases List.mem_cons.mp h with h | h
          · right; rw [h, alookup_setKey_self]; rfl
          · exact Or.inl h
        · exact Or.inr (alookup_setKey_isSome _ _ _ _ h)
      | some j =>
        by_cases hp : j.parallel
        · rw [runEntries_cons_par t ii ctx fuel n0 rest acc j hj hp]
          have hcover := collectParallel_cover t rest
          have hlen2 : (Team.collectParallel t rest).2.length ≤ fuel :=
            le_trans (collectParallel_snd_length t rest) hlen'
          apply ih _ _ _ hlen2
          rcases hsrc with h | h
          · rcases List.mem_cons.mp h with h | h
            · right
              apply runBatch_lookup_isSome
              left
              simp [h]
            · have hsplit : n ∈ (Team.collectParallel t rest).1.map Prod.fst ∨
                  n ∈ (Team.collectParallel t rest).2 := by
                rw [← List.mem_append, hcover]
                exact h
              rcases hsplit with h2 | h2
              · right
                apply runBatch_lookup_isSome
                left
                simp only [List.map_cons, List.mem_cons]
                exact Or.inr h2
              · exact Or.inl h2
          · exact Or.inr (runBatch_lookup_isSome t ii ctx _ _ _ (Or.inr h))
        · have hp' : j.parallel = false := by simpa using hp
          rw [runEntries_cons_seq t ii ctx fuel n0 rest acc j hj hp']
          apply ih _ _ _ hlen'
          rcases hsrc with h | h
          · rcases List.mem_cons.mp h with h | h
            · right; rw [h, alookup_setKey_self]; rfl
            · exact Or.inl h
          · exact Or.inr (alookup_setKey_isSome _ _ _ _ h)

/-- The error record Team._executeJob writes (Team.js line 222) when a
job's agent name is not registered. -/
def agentNotFoundRec (agentName jobName : String) : JSValue :=
  JSValue.obj [("error", JSValue.str
    ("Agent " ++ agentName ++ " not found for job " ++ jobName ++ "."))]

theorem jobOutcome_badagent (t : Team) (ii ctx : JSValue) (n : String) (job : Job)
    (h : alookup t.agents job.agentName = none) :
    t.jobOutcome ii ctx n job = agentNotFoundRec job.agentName n := by
  simp [Team.jobOutcome, agentNotFoundRec, h]

theorem runEntries_lookup_badagent (t : Team) (ii ctx : JSValue)
    (jobName : String) (job : Job)
    (hjob : alookup t.jobs jobName = some job)
    (hagent : alookup t.agents job.agentName = none) :
    ∀ (fuel : Nat) (l : List String) (acc : List (String × JSValue)),
      l.length ≤ fuel →
      (jobName ∈ l ∨
        alookup acc jobName = some (agentNotFoundRec job.agentName jobName)) →
      alookup (Team.runEntries t ii ctx fuel l acc) jobName =
        some (agentNotFoundRec job.agentName jobName) := by
  intro fuel
  induction fuel with
  | zero =>
    intro l acc hlen hsrc
    have hl : l = [] := List.eq_nil_of_length_eq_zero (Nat.le_zero.mp hlen)
    subst hl
    rcases hsrc with h | h
    · simp at h
    · simpa using h
  | succ fuel ih =>
    intro l acc hlen hsrc
    cases l with
    | nil =>
      rcases hsrc with h | h
      · simp at h
      · simpa using h
    | cons n0 rest =>
      have hlen' : rest.length ≤ fuel := by
        simp only [List.length_cons] at hlen
        omega
      cases hj : alookup t.jobs n0 with
      | none =>
        have hne : jobName ≠ n0 := by
          intro hh
          rw [← hh] at hj
          rw [hj] at hjob
          cases hjob
        rw [runEntries_cons_notfound t ii ctx fuel n0 rest acc hj]
        apply ih _ _ hlen'
        rcases hsrc with h | h
        · rcases List.mem_cons.mp h with h | h
          · exact absurd h hne
          · exact Or.inl h
        · right
          rwa [alookup_setKey_ne _ _ _ _ hne]
      | some j =>
        by_cases hp : j.parallel
        · rw [runEntries_cons_par t ii ctx fuel n0 rest acc j hj hp]
          have hcover := collectParallel_cover t rest
          have hlen2 : (Team.collectParallel t rest).2.length ≤ fuel :=
            le_trans (collectParallel_snd_length t rest) hlen'
          apply ih _ _ hlen2
          have hall : ∀ nj ∈ ((n0, j) :: (Team.collectParallel t rest).1),
              nj.1 = jobName → t.jobOutcome ii ctx nj.1 nj.2 =
                agentNotFoundRec job.agentName jobName := by
            intro nj hmemb hname
            have hlook : alookup t.jobs nj.1 = some nj.2 := by
              rcases List.mem_cons.mp hmemb with hh | hh
              · subst hh
                exact hj
              · exact collectParallel_pairs t rest nj hh
            rw [hname, hjob] at hlook
            injection hlook with hj2
            rw [hname, ← hj2]
            exact jobOutcome_badagent t ii ctx jobName job hagent
          rcases hsrc with h | h
          · rcases List.mem_cons.mp h with h | h
            · right
              apply runBatch_lookup_mem t ii ctx _ _ _ _ hall
              left
              simp [h]
            · have hsplit : jobName ∈ (Team.collectParallel t rest).1.map Prod.fst ∨
                  jobName ∈ (Team.collectParallel t rest).2 := by
                rw [← List.mem_append, hcover]
                exact h
              rcases hsplit with h2 | h2
              · right
                apply runBatch_lookup_mem t ii ctx _ _ _ _ hall
                left
                simp only [List.map_cons, List.mem_cons]
                exact Or.inr h2
              · exact Or.inl h2
          · right
            apply runBatch_lookup_mem t ii ctx _ _ _ _ hall
            exact Or.inr h
        · have hp' : j.parallel = false := by simpa using hp
          rw [runEntries_cons_seq t ii ctx fuel n0 rest acc j hj hp']
          apply ih _ _ hlen'
          rcases hsrc with h | h
          · rcases List.mem_cons.mp h with h | h
            · right
              have hj2 : j = job := by
                have h2 := hj
                rw [← h] at h2
                rw [h2] at hjob
                exact Option.some.inj hjob
              rw [h, alookup_setKey_self, hj2,
                jobOutcome_badagent t ii ctx n0 job hagent]
            · exact Or.inl h
          · right
            by_cases he : jobName = n0
            · have hj2 : j = job := by
                have h2 := hj
                rw [← he] at h2
                rw [h2] at hjob
                exact Option.some.inj hjob
              rw [he, alookup_setKey_self, hj2,
                jobOutcome_badagent t ii ctx n0 job hagent]
            · rwa [alookup_setKey_ne _ _ _ _ he]

/-- C6: a Job whose agent (unit) name does not resolve to a registered
agent is contained: the full-workflow run still completes (the model is
total, since the sequential path records and returns and the parallel
throw is absorbed by the run loop's catch around the join), the results
store maps that job's name to the agent-not-found error record, every
workflow entry — in particular every subsequent one — still gets executed
and recorded, and the run returns the keyed results store. -/
theorem c6_missing_agent_contained (t : Team) (initialInputs ctx : JSValue)
    (jobName : String) (job : Job)
    (hjob : alookup t.jobs jobName = some job)
    (hagent : alookup t.agents job.agentName = none)
    (hmem : jobName ∈ t.workflow) :
    alookup (Team.fullRunStore t initialInputs ctx) jobName =
        some (agentNotFoundRec job.agentName jobName) ∧
      (∀ n ∈ t.workflow, (alookup (Team.fullRunStore t initialInputs ctx) n).isSome) ∧
      Team.runModel t initialInputs ctx none =
        JSValue.obj (Team.fullRunStore t initialInputs ctx) := by
  refine ⟨?_, ?_, ?_⟩
  · exact runEntries_lookup_badagent t initialInputs ctx jobName job hjob hagent
      t.workflow.length t.workflow [] (le_refl _) (Or.inl hmem)
  · intro n hn
    exact runEntries_lookup_isSome t initialInputs ctx t.workflow.length t.workflow [] n
      (le_refl _) (Or.inl hn)
  · simp [Team.runModel, optStrTruthy]

/-- A Group whose first job names an unregistered agent and whose second
job is healthy. -/
def teamC6 : Team :=
  ⟨"teamC6", [("e", echoBehavior)],
    [("j1", ⟨"missing", none, none, none, false⟩),
     ("j2", ⟨"e", none, none, none, false⟩)],
    ["j1", "j2"], JSValue.obj []⟩

theorem c6_missing_agent_contained_witness :
    alookup (Team.fullRunStore teamC6 (JSValue.obj []) (JSValue.obj [])) "j1" =
        some (agentNotFoundRec "missing" "j1") ∧
      (alookup (Team.fullRunStore teamC6 (JSValue.obj []) (JSValue.obj [])) "j2").isSome := by
  have h := c6_missing_agent_contained teamC6 (JSValue.obj []) (JSValue.obj [])
    "j1" ⟨"missing", none, none, none, false⟩ (by rfl) (by rfl) (by decide)
  exact ⟨h.1, h.2.1 "j2" (by decide)⟩

/-- Timing abstraction for one parallel batch.  All members are dispatched
synchronously by the `map` over the batch (Team.js lines 170-172; Agency
source lines 171-205) before control returns to the event loop, so every
dispatch happens at tick 0; each member settles (its promise fulfils or
rejects) at some strictly later tick. -/
structure BatchMember where
  settleTick : Nat
  fails : Bool
deriving DecidableEq

/-- All members of a batch are dispatched during the synchronous map, at
tick 0. -/
def memberDispatchTick (_ : BatchMember) : Nat := 0

def settleMax (ms : List BatchMember) : Nat :=
  ms.foldl (fun a m => Nat.max a m.settleTick) 0

def failingSettleMin (ms : List BatchMember) : Nat :=
  match ms.filter (fun m => m.fails) with
  | [] => settleMax ms
  | m :: rest => rest.foldl (fun a x => Nat.min a x.settleTick) m.settleTick

/-- When the Team run loop's `await Promise.all(jobPromises)` completes
(Team.js lines 174-185): a parallel _executeJob rethrows both the
agent-not-found error and any execution error (lines 223-225 and 277-279),
so each failing member's promise REJECTS at its settle tick; Promise.all
then settles at the first rejection, or — when every member fulfils — once
all have settled.  The loop advances past the batch (`i = j`) when this
await completes (the rejection lands in the catch around the join). -/
def teamBatchJoinTick (ms : List BatchMember) : Nat :=
  if ms.any (fun m => m.fails) then failingSettleMin ms else settleMax ms

/-- When the Agency run loop's `await Promise.all(promises)` completes
(Agency source lines 171-215): each mapped async step catches every error
internally and resolves with an error record (lines 200-204), so every
member's promise FULFILS at its settle tick and the join settles only when
all members have settled, regardless of failures. -/
def agencyBatchJoinTick (ms : List BatchMember) : Nat :=
  settleMax ms

theorem le_foldl_max (ms : List BatchMember) (a : Nat) :
    a ≤ ms.foldl (fun x m => Nat.max x m.settleTick) a ∧
      ∀ m ∈ ms, m.settleTick ≤ ms.foldl (fun x m => Nat.max x m.settleTick) a := by
  induction ms generalizing a with
  | nil => exact ⟨le_refl _, by intro m h; simp at h⟩
  | cons m0 rest ih =>
    obtain ⟨h1, h2⟩ := ih (Nat.max a m0.settleTick)
    refine ⟨le_trans (Nat.le_max_left _ _) h1, ?_⟩
    intro m hm
    rcases List.mem_cons.mp hm with hm | hm
    · subst hm
      exact le_trans (Nat.le_max_right _ _) h1
    · exact h2 m hm

theorem settleTick_le_settleMax (ms : List BatchMember) (m : BatchMember)
    (h : m ∈ ms) : m.settleTick ≤ settleMax ms :=
  (le_foldl_max ms 0).2 m h

/-- C2 counterexample: a Group-level batch of two members in which the
first fails at tick 1 and the second settles at tick 2.  Promise.all
rejects at the first rejection, the run loop's catch absorbs it and the
loop advances (`i = j`) at tick 1 — before the second member has settled —
so it is NOT the case that every member settles no later than the tick at
which the executor advances, refuting the claim's "for every outcome
including failures" clause. -/
theorem c2_team_join_advances_before_all_settle :
    ¬ (∀ m ∈ [BatchMember.mk 1 true, BatchMember.mk 2 false],
        m.settleTick ≤ teamBatchJoinTick [BatchMember.mk 1 true, BatchMember.mk 2 false]) := by
  intro h
  have := h (BatchMember.mk 2 false) (by decide)
  simp [teamBatchJoinTick, failingSettleMin, settleMax] at this

/-- C2 amended: every batch member is dispatched (tick 0, during the
synchronous map) strictly before any member settles; at the Organization
level the executor advances only after ALL members have settled, for every
outcome; at the Group level the same holds whenever NO member fails — when
a member fails, the Group-level join can complete at the first rejection,
before slower members settle (see the counterexample). -/
theorem c2_batch_dispatch_and_join (ms : List BatchMember)
    (hpos : ∀ m ∈ ms, 0 < m.settleTick) :
    (∀ m ∈ ms, ∀ m' ∈ ms, memberDispatchTick m < m'.settleTick) ∧
      (∀ m ∈ ms, m.settleTick ≤ agencyBatchJoinTick ms) ∧
      ((∀ m ∈ ms, m.fails = false) →
        ∀ m ∈ ms, m.settleTick ≤ teamBatchJoinTick ms) := by
  refine ⟨?_, ?_, ?_⟩
  · intro m _ m' hm'
    exact hpos m' hm'
  · intro m hm
    exact settleTick_le_settleMax ms m hm
  · intro hnf m hm
    have hany : ms.any (fun m => m.fails) = false := by
      simp only [List.any_eq_false]
      intro x hx
      simp [hnf x hx]
    simp only [teamBatchJoinTick, hany, Bool.false_eq_true, if_false]
    exact settleTick_le_settleMax ms m hm

theorem c2_batch_dispatch_and_join_witness :
    (0 < (1 : Nat)) ∧
      ∀ m ∈ [BatchMember.mk 1 false, BatchMember.mk 2 false],
        m.settleTick ≤ teamBatchJoinTick [BatchMember.mk 1 false, BatchMember.mk 2 false] :=
  ⟨by decide,
    (c2_batch_dispatch_and_join [BatchMember.mk 1 false, BatchMember.mk 2 false]
      (by intro m hm; fin_cases hm <;> decide)).2.2
      (by intro m hm; fin_cases hm <;> decide)⟩
